import Mathlib

/-!
Formal model of the RiboCop / ribotricer periodicity scoring engine.

The development embeds, over the real numbers, the functions of
`RiboCop/common.py` (`coherence`, `pvalue`, `integral_p3`, the `k = 2`
branch of `phase_vector_pdf`) and the per-ORF classification decision of
`ribotricer/detect_orfs.py` (`export_orf_coverages`).  Floating-point
arithmetic of the Python sources is modelled by exact real arithmetic;
the scipy library calls are modelled by their mathematical contracts
(the non-central chi-square survival function by an explicit pushforward
measure, Welch magnitude-squared coherence by its closed form at the
period-3 frequency bin, `integrate.quad` by the interval integral).
-/


/-- Real part of the 3-point DFT of a codon window at the fundamental
frequency, mirroring `common.py` lines 139-140:
`real = values[i] + values[i+1]*cos(2*pi/3) + values[i+2]*cos(4*pi/3)`. -/
noncomputable def dftRe (a b c : ℝ) : ℝ :=
  a + b * Real.cos (2 * Real.pi / 3) + c * Real.cos (4 * Real.pi / 3)

/-- Imaginary part of the 3-point DFT of a codon window, mirroring
`common.py` lines 141-142:
`image = values[i+1]*sin(2*pi/3) + values[i+2]*sin(4*pi/3)`. -/
noncomputable def dftIm (a b c : ℝ) : ℝ :=
  b * Real.sin (2 * Real.pi / 3) + c * Real.sin (4 * Real.pi / 3)

/-- The codon windows retained by the scan of `common.py` lines 134-149:
the loop `while i + 2 < len(values)` advances three positions at a time and
skips windows whose three raw coverage values are all zero.  A trailing
remainder of fewer than three positions is never examined. -/
def retainedTriplets : List ℤ → List (ℤ × ℤ × ℤ)
  | a :: b :: c :: rest =>
      if a = 0 ∧ b = 0 ∧ c = 0 then retainedTriplets rest
      else (a, b, c) :: retainedTriplets rest
  | _ => []

/-- `norm = sqrt(real**2 + image**2)` of `common.py` line 143. -/
noncomputable def codonNorm (a b c : ℝ) : ℝ :=
  Real.sqrt (dftRe a b c ^ 2 + dftIm a b c ^ 2)

/-- Unit normalization of one retained codon window, mirroring `common.py`
lines 139-148: the window is divided by the magnitude of its fundamental
DFT component, with a zero magnitude defensively replaced by 1. -/
noncomputable def normalizeTriplet (t : ℤ × ℤ × ℤ) : ℝ × ℝ × ℝ :=
  let a : ℝ := (t.1 : ℝ)
  let b : ℝ := (t.2.1 : ℝ)
  let c : ℝ := (t.2.2 : ℝ)
  let norm : ℝ := if codonNorm a b c = 0 then 1 else codonNorm a b c
  (a / norm, b / norm, c / norm)

/-- Mathematical value of
`scipy.signal.coherence(x, [1,0,0]*n, window=[1,1,1], nperseg=3, noverlap=0)`
at the frequency bin `f = 1/3` (`common.py` lines 156-163), for a signal `x`
made of the listed 3-sample segments.  With a rectangular 3-tap window,
segments of length 3, and no overlap, Welch estimation averages one DFT per
segment; per-segment mean removal (scipy's `detrend='constant'`) does not
affect the bin at `1/3`, every reference segment `[1,0,0]` has DFT value `1`
there, and all scaling constants cancel in `|Pxy|^2 / (Pxx * Pyy)`, leaving
`|sum_s X_s|^2 / (N * sum_s |X_s|^2)` where `X_s` is the fundamental DFT
component of segment `s` and `N` the number of segments.  The frequency axis
`rfftfreq(3) = [0, 1/3]` always contains the bin `1/3`, so the
`np.argwhere(np.isclose(f, 1/3))` lookup never fails for a nonempty signal.
(When every `X_s` vanishes the Python quotient is `nan`, which compares as
false in `periodicity_score > coh`; the Lean convention `x / 0 = 0` yields
the same observable control flow, since scores are otherwise nonnegative.) -/
noncomputable def welchCoherenceAtOneThird (segs : List (ℝ × ℝ × ℝ)) : ℝ :=
  let re := (segs.map fun t => dftRe t.1 t.2.1 t.2.2).sum
  let im := (segs.map fun t => dftIm t.1 t.2.1 t.2.2).sum
  let den := (segs.map fun t => dftRe t.1 t.2.1 t.2.2 ^ 2 + dftIm t.1 t.2.1 t.2.2 ^ 2).sum
  (re ^ 2 + im ^ 2) / ((segs.length : ℝ) * den)

/-- The non-central chi-square distribution with 2 degrees of freedom and
non-centrality `nc`, realized by its defining construction: the law of
`(Z₁ + sqrt nc)² + Z₂²` for independent standard Gaussians `Z₁, Z₂`.  This is
the distribution family behind `scipy.stats.ncx2(df=2, nc)`. -/
noncomputable def ncx2_df2 (nc : ℝ) : MeasureTheory.Measure ℝ :=
  MeasureTheory.Measure.map (fun p : ℝ × ℝ => (p.1 + Real.sqrt nc) ^ 2 + p.2 ^ 2)
    ((ProbabilityTheory.gaussianReal 0 1).prod (ProbabilityTheory.gaussianReal 0 1))

/-- Survival function `scipy.stats.ncx2.sf(x, 2, nc) = P(X ≥ x)`. -/
noncomputable def ncx2_sf (x nc : ℝ) : ℝ :=
  (ncx2_df2 nc (Set.Ici x)).toReal

/-- `common.py` lines 89-106: `pvalue(x, N)` with `df, nc = 2, 2/(N-1)`
evaluates the ncx2 survival function at `2*N**2*x/(N-1)`. -/
noncomputable def pvalue (x : ℝ) (N : ℤ) : ℝ :=
  ncx2_sf (2 * (N : ℝ) ^ 2 * x / ((N : ℝ) - 1)) (2 / ((N : ℝ) - 1))

/-- `pvalue` as the fallible computation the Python function actually is:
`nc = 2.0 / (N - 1)` raises `ZeroDivisionError` exactly when `N = 1` (the
call sites only produce `N ≥ 1`); for any other `N` the scipy survival
function returns without raising. -/
noncomputable def pvalueE (x : ℝ) (N : ℤ) : Option ℝ :=
  if N = 1 then none else some (pvalue x N)

/-- The `(periodicity_score, periodicity_pval)` pair one frame of
`coherence` computes (`common.py` lines 154-167): the Welch coherence of the
normalized signal at frequency `1/3`, with its p-value at `N = length // 3`
codons; the bare `except` converts the `N = 1` division error inside
`pvalue` into the fallback `(0.0, 1.0)`.  (The frequency-bin lookup itself
cannot fail for a nonempty signal, see `welchCoherenceAtOneThird`.) -/
noncomputable def frameScorePval (values : List ℤ) : ℝ × ℝ :=
  let cods := retainedTriplets values
  let raw := welchCoherenceAtOneThird (cods.map normalizeTriplet)
  match pvalueE raw ((3 * (cods.length : ℤ)) / 3) with
  | none => (0, 1)
  | some p => (raw, p)

/-- The accumulator update at the end of one frame iteration
(`common.py` lines 168-173):
`if periodicity_score > coh: coh, pval, valid = score, pval, length` followed
by `if valid == -1: valid = length`. -/
noncomputable def frameUpdate (st : ℝ × ℝ × ℤ) (sc pv : ℝ) (len : ℤ) : ℝ × ℝ × ℤ :=
  let st1 := if sc > st.1 then (sc, pv, len) else st
  if st1.2.2 = -1 then (st1.1, st1.2.1, len) else st1

/-- One iteration of the frame loop of `coherence` on the sliced values
`original_values[frame:]`.  `length = len(normalized_values) // 3 * 3` is
`3 *` the number of retained codons (the normalized list is built three
components at a time, so the truncation of line 151 is the identity).
`none` models the early `return (0.0, 1.0, 0)` of lines 152-153. -/
noncomputable def frameStep (st : ℝ × ℝ × ℤ) (values : List ℤ) : Option (ℝ × ℝ × ℤ) :=
  let cods := retainedTriplets values
  let length : ℤ := 3 * (cods.length : ℤ)
  if length = 0 then none
  else
    let sp := frameScorePval values
    some (frameUpdate st sp.1 sp.2 length)

/-- `common.py` lines 109-174, `coherence(original_values)`: the accumulator
`(coh, pval, valid)` starts at `(0.0, 1.0, -1)` and is threaded through the
frames `0, 1, 2`; a frame whose truncated normalized signal is empty makes
the whole function return `(0.0, 1.0, 0)` at once. -/
noncomputable def coherence (original_values : List ℤ) : ℝ × ℝ × ℤ :=
  match frameStep (0, 1, -1) (original_values.drop 0) with
  | none => (0, 1, 0)
  | some s0 =>
    match frameStep s0 (original_values.drop 1) with
    | none => (0, 1, 0)
    | some s1 =>
      match frameStep s1 (original_values.drop 2) with
      | none => (0, 1, 0)
      | some s2 => s2

/-- The retained codon windows of frame `f` of a coverage array. -/
def frameData (v : List ℤ) (f : ℕ) : List (ℤ × ℤ × ℤ) :=
  retainedTriplets (v.drop f)

/-- The effective periodicity score the frame loop computes for frame `f`
(after the exception fallback); `0` for a frame with no retained codons. -/
noncomputable def frameScore (v : List ℤ) (f : ℕ) : ℝ :=
  (frameScorePval (v.drop f)).1

/-- `common.py` lines 12-22, `_integrate_v2_v3(v2, v3)`:
`1 / sqrt((4*v2 - v2**2) * (4*v2 - (v2 - v3 + 1)**2))`. -/
noncomputable def integrate_v2_v3 (v2 v3 : ℝ) : ℝ :=
  1 / Real.sqrt ((4 * v2 - v2 ^ 2) * (4 * v2 - (v2 - v3 + 1) ^ 2))

/-- `common.py` lines 25-42, `integral_p3(v3)`: `0` outside `[0, 9]`,
otherwise `integrate.quad` of the kernel from `delta2 = (1 - sqrt v3)**2`
to `epsilon2 = min(4, (1 + sqrt v3)**2)`, modelled as the interval
integral. -/
noncomputable def integral_p3 (v3 : ℝ) : ℝ :=
  if v3 < 0 ∨ v3 > 9 then 0
  else intervalIntegral (fun u => integrate_v2_v3 u v3)
    ((1 - Real.sqrt v3) ^ 2) (min 4 ((1 + Real.sqrt v3) ^ 2)) MeasureTheory.volume

/-- `common.py` lines 66-69, the `k == 2` branch of `phase_vector_pdf`:
`p = (1/pi) * (1/sqrt(x*(4-x)))` multiplied by the indicator of
`(x <= 4) & (x >= 0)`. -/
noncomputable def phase_vector_pdf_k2 (x : ℝ) : ℝ :=
  let p := 1 / Real.pi * (1 / Real.sqrt (x * (4 - x)))
  (if x ≤ 4 ∧ 0 ≤ x then (1 : ℝ) else 0) * p

/-- Modelled from the spec: `ribotricer.common.collapse_coverage_to_codon`,
used by `detect_orfs.py` but absent from the provided sources.  Per
spec §4.4 step 2 it collapses coverage to per-codon sums, summing every 3
consecutive positions (a trailing remainder of fewer than 3 positions forms
no codon). -/
def collapse_coverage_to_codon : List ℤ → List ℤ
  | a :: b :: c :: rest => (a + b + c) :: collapse_coverage_to_codon rest
  | _ => []

/-- Score of one frame of the ribotricer coherence: Welch magnitude-squared
coherence of the normalized frame signal against the ideal `[1,0,0]` signal
at frequency `1/3`; `0` when no codon is retained. -/
noncomputable def statistics_frameScore (vals : List ℤ) : ℝ :=
  welchCoherenceAtOneThird ((retainedTriplets vals).map normalizeTriplet)

/-- Best-frame accumulator update of the ribotricer coherence, with the
frame-0 fallback `if valid == -1: valid = n_codons`. -/
noncomputable def statistics_frameUpdate (st : ℝ × ℤ) (sc : ℝ) (nc : ℤ) : ℝ × ℤ :=
  let st1 := if sc > st.1 then (sc, nc) else st
  if st1.2 = -1 then (st1.1, nc) else st1

/-- Modelled from the spec: `ribotricer.statistics.coherence`, the function
`detect_orfs.export_orf_coverages` actually imports (its
`from .statistics` import, unpacked as `coh, valid_codons = coherence(cov)`); the
`statistics` module is absent from the provided sources.  Per spec
§4.1-§4.2: each of the three frame offsets is frame-normalized and scored
independently; a frame whose truncation yields length 0 has result
`(0.0, 1.0, 0)` and computation stops for that frame only; the
maximum-scoring frame is selected; `valid_codons` is the number of retained
codons of the chosen frame (the effective sample size); when no frame
attains a strictly positive score the reported `valid_codons` is that of
frame 0. -/
noncomputable def statistics_coherence (v : List ℤ) : ℝ × ℤ :=
  let s0 := statistics_frameUpdate (0, -1) (statistics_frameScore (v.drop 0))
    ((retainedTriplets (v.drop 0)).length : ℤ)
  let s1 := statistics_frameUpdate s0 (statistics_frameScore (v.drop 1))
    ((retainedTriplets (v.drop 1)).length : ℤ)
  statistics_frameUpdate s1 (statistics_frameScore (v.drop 2))
    ((retainedTriplets (v.drop 2)).length : ℤ)

/-- The classification decision of `detect_orfs.py` lines 261-276, on the
already-computed per-ORF quantities: `status = "translating"` if
`coh >= phase_score_cutoff and valid_codons >= min_valid_codons and
np.all(codon_coverage >= min_reads_per_codon) and valid_codons_ratio >=
min_valid_codons_ratio and orf_density >= min_density_over_orf` else
`"nontranslating"`.  `minFrac` stands for the source's
`min_valid_codons_ratio` threshold and `vcFrac` for its
`valid_codons_ratio` value; `minDens` / `orfDens` stand for
`min_density_over_orf` / `orf_density`. -/
noncomputable def orf_status_of (coh valid_codons : ℝ) (codon_coverage : List ℝ)
    (vcFrac orfDens cutoff minValid minReads minFrac minDens : ℝ) : String :=
  let codon_coverage_exceeds_min := codon_coverage.map fun c => decide (minReads ≤ c)
  if cutoff ≤ coh ∧ minValid ≤ valid_codons ∧
      codon_coverage_exceeds_min.all (fun b => b) = true ∧
      minFrac ≤ vcFrac ∧ minDens ≤ orfDens
  then "translating" else "nontranslating"

/-- The per-ORF scoring pipeline of `detect_orfs.export_orf_coverages`
lines 254-276: coherence and valid codons from the (spec-modelled)
ribotricer `coherence`, `n_codons = length // 3`, codon-collapsed coverage,
`valid_codons_ratio = valid_codons / n_codons`,
`orf_density = sum(codon_coverage) / n_codons`, then the five-gate
decision. -/
noncomputable def orf_status (cov : List ℤ) (cutoff minValid minReads minFrac minDens : ℝ) :
    String :=
  let r := statistics_coherence cov
  let n_codons : ℤ := (cov.length : ℤ) / 3
  let codon_coverage := collapse_coverage_to_codon cov
  orf_status_of r.1 (r.2 : ℝ) (codon_coverage.map fun z => (z : ℝ))
    ((r.2 : ℝ) / (n_codons : ℝ)) ((codon_coverage.sum : ℝ) / (n_codons : ℝ))
    cutoff minValid minReads minFrac minDens

/-! ### Trigonometric evaluations of the DFT projection -/

theorem cos_two_pi_div_three : Real.cos (2 * Real.pi / 3) = -(1 / 2) := by
  have h : 2 * Real.pi / 3 = Real.pi - Real.pi / 3 := by ring
  rw [h, Real.cos_pi_sub, Real.cos_pi_div_three]

theorem sin_two_pi_div_three : Real.sin (2 * Real.pi / 3) = Real.sqrt 3 / 2 := by
  have h : 2 * Real.pi / 3 = Real.pi - Real.pi / 3 := by ring
  rw [h, Real.sin_pi_sub, Real.sin_pi_div_three]

theorem cos_four_pi_div_three : Real.cos (4 * Real.pi / 3) = -(1 / 2) := by
  have h : 4 * Real.pi / 3 = Real.pi - -(Real.pi / 3) := by ring
  rw [h, Real.cos_pi_sub, Real.cos_neg, Real.cos_pi_div_three]

theorem sin_four_pi_div_three : Real.sin (4 * Real.pi / 3) = -(Real.sqrt 3 / 2) := by
  have h : 4 * Real.pi / 3 = Real.pi - -(Real.pi / 3) := by ring
  rw [h, Real.sin_pi_sub, Real.sin_neg, Real.sin_pi_div_three]

theorem dftRe_eq (a b c : ℝ) : dftRe a b c = a - b / 2 - c / 2 := by
  unfold dftRe
  rw [cos_two_pi_div_three, cos_four_pi_div_three]
  ring

theorem dftIm_eq (a b c : ℝ) : dftIm a b c = (b - c) * Real.sqrt 3 / 2 := by
  unfold dftIm
  rw [sin_two_pi_div_three, sin_four_pi_div_three]
  ring

theorem dft_normSq_eq (a b c : ℝ) :
    dftRe a b c ^ 2 + dftIm a b c ^ 2 = (a - b / 2 - c / 2) ^ 2 + 3 * ((b - c) / 2) ^ 2 := by
  rw [dftRe_eq, dftIm_eq]
  have h3 : Real.sqrt 3 * Real.sqrt 3 = 3 := Real.mul_self_sqrt (by norm_num)
  linear_combination ((b - c) ^ 2 / 4) * h3

theorem codonNorm_eval (a b c q : ℝ) (hq : 0 ≤ q)
    (h : (a - b / 2 - c / 2) ^ 2 + 3 * ((b - c) / 2) ^ 2 = q ^ 2) :
    codonNorm a b c = q := by
  unfold codonNorm
  rw [dft_normSq_eq, h, Real.sqrt_sq hq]

/-! ### Evaluation of the normalization on concrete codon shapes -/

theorem normalizeTriplet_a00 (v : ℤ) (hv : 0 < v) :
    normalizeTriplet (v, 0, 0) = (1, 0, 0) := by
  have hvR : (0 : ℝ) < (v : ℝ) := by exact_mod_cast hv
  have hn : codonNorm (v : ℝ) ((0 : ℤ) : ℝ) ((0 : ℤ) : ℝ) = (v : ℝ) := by
    push_cast
    exact codonNorm_eval _ _ _ _ hvR.le (by ring)
  unfold normalizeTriplet
  simp only [hn]
  rw [if_neg (by exact hvR.ne')]
  rw [div_self hvR.ne']
  norm_num

theorem normalizeTriplet_0b0 (v : ℤ) (hv : 0 < v) :
    normalizeTriplet (0, v, 0) = (0, 1, 0) := by
  have hvR : (0 : ℝ) < (v : ℝ) := by exact_mod_cast hv
  have hn : codonNorm ((0 : ℤ) : ℝ) (v : ℝ) ((0 : ℤ) : ℝ) = (v : ℝ) := by
    push_cast
    exact codonNorm_eval _ _ _ _ hvR.le (by ring)
  unfold normalizeTriplet
  simp only [hn]
  rw [if_neg (by exact hvR.ne')]
  rw [div_self hvR.ne']
  norm_num

theorem normalizeTriplet_00c (v : ℤ) (hv : 0 < v) :
    normalizeTriplet (0, 0, v) = (0, 0, 1) := by
  have hvR : (0 : ℝ) < (v : ℝ) := by exact_mod_cast hv
  have hn : codonNorm ((0 : ℤ) : ℝ) ((0 : ℤ) : ℝ) (v : ℝ) = (v : ℝ) := by
    push_cast
    exact codonNorm_eval _ _ _ _ hvR.le (by ring)
  unfold normalizeTriplet
  simp only [hn]
  rw [if_neg (by exact hvR.ne')]
  rw [div_self hvR.ne']
  norm_num

/-! ### Evaluation of the Welch coherence on concrete normalized signals -/

theorem welch_100_010 : welchCoherenceAtOneThird [(1,0,0),(0,1,0)] = 1/4 := by
  simp only [welchCoherenceAtOneThird, List.map_cons, List.map_nil, List.sum_cons,
    List.sum_nil, List.length_cons, List.length_nil, dftRe_eq, dftIm_eq]
  push_cast
  field_simp
  ring_nf

theorem welch_100_100_100 : welchCoherenceAtOneThird [(1,0,0),(1,0,0),(1,0,0)] = 1 := by
  simp only [welchCoherenceAtOneThird, List.map_cons, List.map_nil, List.sum_cons,
    List.sum_nil, List.length_cons, List.length_nil, dftRe_eq, dftIm_eq]
  norm_num

theorem welch_001_001 : welchCoherenceAtOneThird [(0,0,1),(0,0,1)] = 1 := by
  have h3 : Real.sqrt 3 ^ 2 = 3 := Real.sq_sqrt (by norm_num)
  simp only [welchCoherenceAtOneThird, List.map_cons, List.map_nil, List.sum_cons,
    List.sum_nil, List.length_cons, List.length_nil, dftRe_eq, dftIm_eq]
  push_cast
  field_simp
  ring_nf
  nlinarith [h3]

theorem welch_010_010 : welchCoherenceAtOneThird [(0,1,0),(0,1,0)] = 1 := by
  have h3 : Real.sqrt 3 ^ 2 = 3 := Real.sq_sqrt (by norm_num)
  simp only [welchCoherenceAtOneThird, List.map_cons, List.map_nil, List.sum_cons,
    List.sum_nil, List.length_cons, List.length_nil, dftRe_eq, dftIm_eq]
  push_cast
  field_simp
  ring_nf

/-! ### Structure of the frame loop -/

theorem frameStep_eq_none (st : ℝ × ℝ × ℤ) (values : List ℤ)
    (h : retainedTriplets values = []) : frameStep st values = none := by
  unfold frameStep
  simp [h]

theorem frameStep_eq_some (st : ℝ × ℝ × ℤ) (values : List ℤ)
    (h : retainedTriplets values ≠ []) :
    frameStep st values =
      some (frameUpdate st (frameScorePval values).1 (frameScorePval values).2
        (3 * ((retainedTriplets values).length : ℤ))) := by
  unfold frameStep
  rw [if_neg]
  intro hc
  apply h
  apply List.length_eq_zero.mp
  omega

theorem frameScorePval_single (values : List ℤ)
    (h : (retainedTriplets values).length = 1) : frameScorePval values = (0, 1) := by
  simp only [frameScorePval, pvalueE, h]
  norm_num

theorem frameUpdate_no_improve (st : ℝ × ℝ × ℤ) (sc pv : ℝ) (len : ℤ)
    (h : ¬ sc > st.1) :
    frameUpdate st sc pv len = if st.2.2 = -1 then (st.1, st.2.1, len) else st := by
  unfold frameUpdate
  rw [if_neg h]

theorem frameUpdate_valid_cases (st : ℝ × ℝ × ℤ) (sc pv : ℝ) (len : ℤ) :
    (frameUpdate st sc pv len).2.2 = len ∨
      ((frameUpdate st sc pv len) = st ∧ st.2.2 ≠ -1) := by
  unfold frameUpdate
  by_cases h1 : sc > st.1
  · rw [if_pos h1]
    by_cases h2 : ((sc, pv, len) : ℝ × ℝ × ℤ).2.2 = -1
    · rw [if_pos h2]
      exact Or.inl rfl
    · rw [if_neg h2]
      exact Or.inl rfl
  · rw [if_neg h1]
    by_cases h2 : st.2.2 = -1
    · rw [if_pos h2]
      exact Or.inl rfl
    · rw [if_neg h2]
      exact Or.inr ⟨rfl, h2⟩

/-! ### Concrete evaluations of `coherence` -/

theorem coherence_eval_100 : coherence [1, 0, 0] = (0, 1, 0) := by
  unfold coherence
  have hr : retainedTriplets (List.drop 0 [1, 0, 0]) = [(1, 0, 0)] := by decide
  have h0 : frameStep (0, 1, -1) (List.drop 0 [1, 0, 0]) = some (0, 1, 3) := by
    rw [frameStep_eq_some _ _ (by decide)]
    rw [frameScorePval_single _ (by decide), hr]
    unfold frameUpdate
    norm_num
  have h1 : ∀ st : ℝ × ℝ × ℤ, frameStep st (List.drop 1 [1, 0, 0]) = none :=
    fun st => frameStep_eq_none st _ (by decide)
  simp only [h0, h1]

theorem coherence_eval_c1 : coherence [1, 0, 0, 0, 1, 0] = (0, 1, 0) := by
  unfold coherence
  obtain ⟨s0, h0⟩ : ∃ s, frameStep (0, 1, -1) (List.drop 0 [1, 0, 0, 0, 1, 0]) = some s := by
    rw [frameStep_eq_some _ _ (by decide)]
    exact ⟨_, rfl⟩
  have h1 : ∀ st : ℝ × ℝ × ℤ, frameStep st (List.drop 1 [1, 0, 0, 0, 1, 0]) = none :=
    fun st => frameStep_eq_none st _ (by decide)
  simp only [h0, h1]

theorem frameScore_eval_c1 : frameScore [1, 0, 0, 0, 1, 0] 0 = 1 / 4 := by
  have hr : retainedTriplets (List.drop 0 [1, 0, 0, 0, 1, 0]) = [(1, 0, 0), (0, 1, 0)] := by
    decide
  simp only [frameScore, frameScorePval, pvalueE, hr]
  rw [List.map_cons, List.map_cons, List.map_nil,
    normalizeTriplet_a00 1 (by norm_num), normalizeTriplet_0b0 1 (by norm_num)]
  rw [welch_100_010]
  norm_num

/-! ### The significance model -/

theorem ncx2_measurable (nc : ℝ) :
    Measurable fun p : ℝ × ℝ => (p.1 + Real.sqrt nc) ^ 2 + p.2 ^ 2 := by
  fun_prop

theorem ncx2_df2_isProbability (nc : ℝ) :
    MeasureTheory.IsProbabilityMeasure (ncx2_df2 nc) := by
  unfold ncx2_df2
  exact MeasureTheory.isProbabilityMeasure_map (ncx2_measurable nc).aemeasurable

theorem ncx2_sf_zero (nc : ℝ) : ncx2_sf 0 nc = 1 := by
  unfold ncx2_sf ncx2_df2
  rw [MeasureTheory.Measure.map_apply (ncx2_measurable nc) measurableSet_Ici]
  have h : Set.preimage (fun p : ℝ × ℝ => (p.1 + Real.sqrt nc) ^ 2 + p.2 ^ 2) (Set.Ici 0) =
      Set.univ := by
    apply Set.eq_univ_of_forall
    intro p
    simp only [Set.mem_preimage, Set.mem_Ici]
    positivity
  rw [h]
  simp

theorem ncx2_sf_anti (nc : ℝ) {x y : ℝ} (hxy : x ≤ y) : ncx2_sf y nc ≤ ncx2_sf x nc := by
  have hp := ncx2_df2_isProbability nc
  unfold ncx2_sf
  apply ENNReal.toReal_mono
  · exact MeasureTheory.measure_ne_top _ _
  · exact MeasureTheory.measure_mono (Set.Ici_subset_Ici.mpr hxy)

/-! ### Evaluation of the spec-modelled ribotricer coherence on the
end-to-end scenario coverage -/

theorem statistics_frameScore_c4_f0 :
    statistics_frameScore (List.drop 0 [3, 0, 0, 2, 0, 0, 1, 0, 0]) = 1 := by
  unfold statistics_frameScore
  have hr : retainedTriplets (List.drop 0 [3, 0, 0, 2, 0, 0, 1, 0, 0]) =
      [(3, 0, 0), (2, 0, 0), (1, 0, 0)] := by decide
  rw [hr, List.map_cons, List.map_cons, List.map_cons, List.map_nil,
    normalizeTriplet_a00 3 (by norm_num), normalizeTriplet_a00 2 (by norm_num),
    normalizeTriplet_a00 1 (by norm_num), welch_100_100_100]

theorem statistics_frameScore_c4_f1 :
    statistics_frameScore (List.drop 1 [3, 0, 0, 2, 0, 0, 1, 0, 0]) = 1 := by
  unfold statistics_frameScore
  have hr : retainedTriplets (List.drop 1 [3, 0, 0, 2, 0, 0, 1, 0, 0]) =
      [(0, 0, 2), (0, 0, 1)] := by decide
  rw [hr, List.map_cons, List.map_cons, List.map_nil,
    normalizeTriplet_00c 2 (by norm_num), normalizeTriplet_00c 1 (by norm_num),
    welch_001_001]

theorem statistics_frameScore_c4_f2 :
    statistics_frameScore (List.drop 2 [3, 0, 0, 2, 0, 0, 1, 0, 0]) = 1 := by
  unfold statistics_frameScore
  have hr : retainedTriplets (List.drop 2 [3, 0, 0, 2, 0, 0, 1, 0, 0]) =
      [(0, 2, 0), (0, 1, 0)] := by decide
  rw [hr, List.map_cons, List.map_cons, List.map_nil,
    normalizeTriplet_0b0 2 (by norm_num), normalizeTriplet_0b0 1 (by norm_num),
    welch_010_010]

theorem statistics_coherence_c4 :
    statistics_coherence [3, 0, 0, 2, 0, 0, 1, 0, 0] = (1, 3) := by
  unfold statistics_coherence
  rw [statistics_frameScore_c4_f0, statistics_frameScore_c4_f1, statistics_frameScore_c4_f2]
  have h0 : ((retainedTriplets (List.drop 0 [3, 0, 0, 2, 0, 0, 1, 0, 0])).length : ℤ) = 3 := by
    decide
  have h1 : ((retainedTriplets (List.drop 1 [3, 0, 0, 2, 0, 0, 1, 0, 0])).length : ℤ) = 2 := by
    decide
  have h2 : ((retainedTriplets (List.drop 2 [3, 0, 0, 2, 0, 0, 1, 0, 0])).length : ℤ) = 2 := by
    decide
  rw [h0, h1, h2]
  unfold statistics_frameUpdate
  norm_num

theorem orf_status_c4_reduce (c mv mr mf md : ℝ) :
    orf_status [3, 0, 0, 2, 0, 0, 1, 0, 0] c mv mr mf md =
      orf_status_of 1 3 [3, 2, 1] 1 2 c mv mr mf md := by
  unfold orf_status
  rw [statistics_coherence_c4]
  have hc : collapse_coverage_to_codon [3, 0, 0, 2, 0, 0, 1, 0, 0] = [3, 2, 1] := by decide
  rw [hc]
  norm_num [List.map_cons, List.map_nil, List.sum_cons, List.sum_nil]

theorem orf_status_of_c4_nontranslating (mr mf md : ℝ) :
    orf_status_of 1 3 [3, 2, 1] 1 2 (0.4275) 5 mr mf md = "nontranslating" := by
  unfold orf_status_of
  rw [if_neg]
  intro h
  have h5 := h.2.1
  norm_num at h5

theorem orf_status_of_c4_translating (mr mf md : ℝ)
    (h1 : mr ≤ 1) (h2 : mf ≤ 1) (h3 : md ≤ 2) :
    orf_status_of 1 3 [3, 2, 1] 1 2 (0.4275) 3 mr mf md = "translating" := by
  unfold orf_status_of
  rw [if_pos]
  refine ⟨by norm_num, by norm_num, ?_, h2, h3⟩
  simp only [List.map_cons, List.map_nil, List.all_cons, List.all_nil,
    Bool.and_true, Bool.and_eq_true, decide_eq_true_eq]
  refine ⟨by linarith, by linarith, by linarith⟩

/-! ### `integral_p3` at the boundary and inside the support -/

theorem integral_p3_at_zero : integral_p3 0 = 0 := by
  unfold integral_p3
  rw [if_neg (by norm_num)]
  rw [Real.sqrt_zero]
  have hb : min (4 : ℝ) ((1 + 0) ^ 2) = (1 - 0) ^ 2 := by norm_num
  rw [hb]
  exact intervalIntegral.integral_same

theorem integral_p3_at_nine : integral_p3 9 = 0 := by
  unfold integral_p3
  rw [if_neg (by norm_num)]
  have h9 : Real.sqrt 9 = 3 := by
    rw [show (9 : ℝ) = 3 ^ 2 by norm_num, Real.sqrt_sq (by norm_num)]
  rw [h9]
  have hb : min (4 : ℝ) ((1 + 3) ^ 2) = (1 - 3) ^ 2 := by norm_num
  rw [hb]
  exact intervalIntegral.integral_same

theorem integral_p3_bounds_lt {v3 : ℝ} (h0 : 0 < v3) (h9 : v3 < 9) :
    (1 - Real.sqrt v3) ^ 2 < min 4 ((1 + Real.sqrt v3) ^ 2) := by
  have hs0 : 0 < Real.sqrt v3 := Real.sqrt_pos.mpr h0
  have hs3 : Real.sqrt v3 < 3 := (Real.sqrt_lt' (by norm_num)).mpr (by norm_num [h9])
  apply lt_min
  · nlinarith
  · nlinarith

theorem integrate_v2_v3_pos {v3 u : ℝ} (h0 : 0 < v3)
    (hl : (1 - Real.sqrt v3) ^ 2 < u) (hr : u < min 4 ((1 + Real.sqrt v3) ^ 2)) :
    0 < integrate_v2_v3 u v3 := by
  have hv3 : Real.sqrt v3 ^ 2 = v3 := Real.sq_sqrt h0.le
  have hu0 : 0 < u := lt_of_le_of_lt (sq_nonneg _) hl
  have hu4 : u < 4 := lt_of_lt_of_le hr (min_le_left _ _)
  have hue : u < (1 + Real.sqrt v3) ^ 2 := lt_of_lt_of_le hr (min_le_right _ _)
  have hfac : 4 * u - (u - v3 + 1) ^ 2 =
      (u - (1 - Real.sqrt v3) ^ 2) * ((1 + Real.sqrt v3) ^ 2 - u) := by
    linear_combination (v3 + Real.sqrt v3 ^ 2 - 2 * u - 2) * hv3
  have ht1 : 0 < 4 * u - u ^ 2 := by nlinarith
  have ht2 : 0 < 4 * u - (u - v3 + 1) ^ 2 := by
    rw [hfac]
    exact mul_pos (by linarith) (by linarith)
  unfold integrate_v2_v3
  apply one_div_pos.mpr
  exact Real.sqrt_pos.mpr (mul_pos ht1 ht2)

theorem integral_p3_nonneg_inside {v3 : ℝ} (h0 : 0 < v3) (h9 : v3 < 9) :
    0 ≤ integral_p3 v3 := by
  unfold integral_p3
  rw [if_neg (by push_neg; constructor <;> linarith)]
  apply intervalIntegral.integral_nonneg (integral_p3_bounds_lt h0 h9).le
  intro u _
  unfold integrate_v2_v3
  positivity

/-! ### Invariants of the frame accumulator -/

theorem welch_nil : welchCoherenceAtOneThird [] = 0 := by
  unfold welchCoherenceAtOneThird
  simp

theorem frameScorePval_fst_empty (vals : List ℤ) (h : retainedTriplets vals = []) :
    (frameScorePval vals).1 = 0 := by
  simp only [frameScorePval, pvalueE, h]
  norm_num [welch_nil]

theorem coherence_of_none0 (v : List ℤ)
    (h0 : frameStep (0, 1, -1) (v.drop 0) = none) : coherence v = (0, 1, 0) := by
  unfold coherence
  simp only [h0]

theorem coherence_of_none1 (v : List ℤ) (s0 : ℝ × ℝ × ℤ)
    (h0 : frameStep (0, 1, -1) (v.drop 0) = some s0)
    (h1 : frameStep s0 (v.drop 1) = none) : coherence v = (0, 1, 0) := by
  unfold coherence
  simp only [h0, h1]

theorem coherence_of_none2 (v : List ℤ) (s0 s1 : ℝ × ℝ × ℤ)
    (h0 : frameStep (0, 1, -1) (v.drop 0) = some s0)
    (h1 : frameStep s0 (v.drop 1) = some s1)
    (h2 : frameStep s1 (v.drop 2) = none) : coherence v = (0, 1, 0) := by
  unfold coherence
  simp only [h0, h1, h2]

theorem coherence_of_steps (v : List ℤ) (s0 s1 s2 : ℝ × ℝ × ℤ)
    (h0 : frameStep (0, 1, -1) (v.drop 0) = some s0)
    (h1 : frameStep s0 (v.drop 1) = some s1)
    (h2 : frameStep s1 (v.drop 2) = some s2) : coherence v = s2 := by
  unfold coherence
  simp only [h0, h1, h2]

theorem frameStep_some_valid (st : ℝ × ℝ × ℤ) (vals : List ℤ) (s : ℝ × ℝ × ℤ)
    (h : frameStep st vals = some s) :
    s.2.2 = 3 * ((retainedTriplets vals).length : ℤ) ∨ (s = st ∧ st.2.2 ≠ -1) := by
  simp only [frameStep] at h
  by_cases hc : 3 * ((retainedTriplets vals).length : ℤ) = 0
  · rw [if_pos hc] at h
    exact Option.noConfusion h
  · rw [if_neg hc] at h
    have h2 := Option.some.inj h
    rcases frameUpdate_valid_cases st (frameScorePval vals).1 (frameScorePval vals).2
        (3 * ((retainedTriplets vals).length : ℤ)) with hl | ⟨he, hne⟩
    · rw [← h2]
      exact Or.inl hl
    · rw [← h2]
      exact Or.inr ⟨he, hne⟩

theorem coherence_valid_structure (v : List ℤ) :
    0 ≤ (coherence v).2.2 ∧ 3 ∣ (coherence v).2.2 ∧
      ((coherence v).2.2 = 0 ∨
        ∃ f, f < 3 ∧ (coherence v).2.2 = 3 * ((frameData v f).length : ℤ)) := by
  rcases hh0 : frameStep (0, 1, -1) (v.drop 0) with _ | s0
  · rw [coherence_of_none0 v hh0]
    exact ⟨by norm_num, by norm_num, Or.inl rfl⟩
  · have hv0 : s0.2.2 = 3 * ((frameData v 0).length : ℤ) := by
      rcases frameStep_some_valid _ _ _ hh0 with h | ⟨_, hne⟩
      · exact h
      · exact absurd rfl hne
    rcases hh1 : frameStep s0 (v.drop 1) with _ | s1
    · rw [coherence_of_none1 v s0 hh0 hh1]
      exact ⟨by norm_num, by norm_num, Or.inl rfl⟩
    · have hv1 : s1.2.2 = 3 * ((frameData v 1).length : ℤ) ∨ s1.2.2 = s0.2.2 := by
        rcases frameStep_some_valid _ _ _ hh1 with h | ⟨he, _⟩
        · exact Or.inl h
        · exact Or.inr (by rw [he])
      rcases hh2 : frameStep s1 (v.drop 2) with _ | s2
      · rw [coherence_of_none2 v s0 s1 hh0 hh1 hh2]
        exact ⟨by norm_num, by norm_num, Or.inl rfl⟩
      · have hv2 : s2.2.2 = 3 * ((frameData v 2).length : ℤ) ∨ s2.2.2 = s1.2.2 := by
          rcases frameStep_some_valid _ _ _ hh2 with h | ⟨he, _⟩
          · exact Or.inl h
          · exact Or.inr (by rw [he])
        rw [coherence_of_steps v s0 s1 s2 hh0 hh1 hh2]
        have hex : ∃ f, f < 3 ∧ s2.2.2 = 3 * ((frameData v f).length : ℤ) := by
          rcases hv2 with h2 | h2
          · exact ⟨2, by norm_num, h2⟩
          · rcases hv1 with h1 | h1
            · exact ⟨1, by norm_num, by rw [h2, h1]⟩
            · exact ⟨0, by norm_num, by rw [h2, h1, hv0]⟩
        obtain ⟨f, hf, heq⟩ := hex
        refine ⟨by rw [heq]; positivity, by rw [heq]; exact ⟨_, rfl⟩, Or.inr ⟨f, hf, heq⟩⟩

theorem frameStep_no_improve (st : ℝ × ℝ × ℤ) (vals : List ℤ)
    (hne : retainedTriplets vals ≠ []) (hsc : (frameScorePval vals).1 ≤ 0)
    (hst : st.1 = 0) (hv : st.2.2 ≠ -1) :
    frameStep st vals = some st := by
  have hni : ¬ (frameScorePval vals).1 > st.1 := by
    rw [hst]
    exact not_lt.mpr hsc
  rw [frameStep_eq_some _ _ hne, frameUpdate_no_improve _ _ _ _ hni, if_neg hv]

theorem frameStep_no_improve_init (vals : List ℤ)
    (hne : retainedTriplets vals ≠ []) (hsc : (frameScorePval vals).1 ≤ 0) :
    frameStep (0, 1, -1) vals = some (0, 1, 3 * ((retainedTriplets vals).length : ℤ)) := by
  have hni : ¬ (frameScorePval vals).1 > (((0 : ℝ), (1 : ℝ), (-1 : ℤ)) : ℝ × ℝ × ℤ).1 :=
    not_lt.mpr hsc
  rw [frameStep_eq_some _ _ hne, frameUpdate_no_improve _ _ _ _ hni, if_pos rfl]

theorem coherence_valid_frame0_of_nonpos (v : List ℤ)
    (hne : ∀ f, f < 3 → frameData v f ≠ [])
    (hsc : ∀ f, f < 3 → frameScore v f ≤ 0) :
    (coherence v).2.2 = 3 * ((frameData v 0).length : ℤ) := by
  have h0 := frameStep_no_improve_init (v.drop 0) (hne 0 (by norm_num)) (hsc 0 (by norm_num))
  have hvne : ((((0 : ℝ), (1 : ℝ),
      3 * ((retainedTriplets (v.drop 0)).length : ℤ)) : ℝ × ℝ × ℤ)).2.2 ≠ -1 := by
    show 3 * ((retainedTriplets (v.drop 0)).length : ℤ) ≠ -1
    omega
  have h1 := frameStep_no_improve _ (v.drop 1) (hne 1 (by norm_num)) (hsc 1 (by norm_num))
    rfl hvne
  have h2 := frameStep_no_improve _ (v.drop 2) (hne 2 (by norm_num)) (hsc 2 (by norm_num))
    rfl hvne
  rw [coherence_of_steps v _ _ _ h0 h1 h2]
  rfl

/-! ## Claims -/

/-- Claim C1, counterexample.  On the coverage `[1,0,0,0,1,0]` frame 0 is
non-degenerate and attains the positive score `1/4`, yet `coherence` returns
`(0.0, 1.0, 0)` because frame 1 truncates to length 0 and the function
returns at once — the remaining frames are not evaluated and the overall
result is not the best over the three frames. -/
theorem coherence_not_best_frame_cex :
    0 < frameScore [1, 0, 0, 0, 1, 0] 0 ∧ coherence [1, 0, 0, 0, 1, 0] = (0, 1, 0) := by
  refine ⟨?_, coherence_eval_c1⟩
  rw [frameScore_eval_c1]
  norm_num

/-- Claim C1, amended.  If the truncated normalized signal of frame `f` is
empty (and every earlier frame is non-degenerate, so that execution reaches
frame `f`), `coherence` immediately returns `(0.0, 1.0, 0)` for the whole
call, discarding the results of the earlier frames and skipping the
remaining ones. -/
theorem coherence_degenerate_frame_aborts (v : List ℤ) (f : ℕ) (hf : f < 3)
    (hdeg : frameData v f = []) (hpre : ∀ g, g < f → frameData v g ≠ []) :
    coherence v = (0, 1, 0) := by
  interval_cases f
  · exact coherence_of_none0 v (frameStep_eq_none _ _ hdeg)
  · have h0 := frameStep_eq_some (0, 1, -1) (v.drop 0) (hpre 0 (by norm_num))
    exact coherence_of_none1 v _ h0 (frameStep_eq_none _ _ hdeg)
  · have h0 := frameStep_eq_some (0, 1, -1) (v.drop 0) (hpre 0 (by norm_num))
    have h1 := frameStep_eq_some
      (frameUpdate (0, 1, -1) (frameScorePval (v.drop 0)).1 (frameScorePval (v.drop 0)).2
        (3 * ((retainedTriplets (v.drop 0)).length : ℤ)))
      (v.drop 1) (hpre 1 (by norm_num))
    exact coherence_of_none2 v _ _ h0 h1 (frameStep_eq_none _ _ hdeg)

/-- Witness for the amended claim C1 at the concrete coverage
`[1,0,0,0,1,0]`, whose frame 1 is degenerate while frame 0 is not. -/
theorem coherence_degenerate_frame_aborts_witness :
    1 < 3 ∧ frameData [1, 0, 0, 0, 1, 0] 1 = [] ∧
      frameData [1, 0, 0, 0, 1, 0] 0 ≠ [] ∧
      coherence [1, 0, 0, 0, 1, 0] = (0, 1, 0) := by
  refine ⟨by norm_num, by decide, by decide, ?_⟩
  exact coherence_degenerate_frame_aborts [1, 0, 0, 0, 1, 0] 1 (by norm_num) (by decide)
    (by intro g hg; interval_cases g; decide)

/-- Claim C2, counterexample.  `coherence([1,0,0])` does not return score
`1.0` with `valid = 3`: the `N = 1` p-value singularity zeroes the frame-0
score and the degenerate frame 1 then forces the `(0.0, 1.0, 0)` early
return. -/
theorem coherence_single_codon_cex :
    ¬ ((coherence [1, 0, 0]).1 = 1 ∧ (coherence [1, 0, 0]).2.2 = 3) := by
  rw [coherence_eval_100]
  intro h
  exact absurd h.1 (by norm_num)

/-- Claim C2, amended.  `coherence([1,0,0])` returns `(0.0, 1.0, 0)`. -/
theorem coherence_single_codon_amended : coherence [1, 0, 0] = (0, 1, 0) :=
  coherence_eval_100

/-- Claim C6, counterexample.  On `[1,0,0]` no frame attains a strictly
positive effective score, yet the returned valid-codons value `0` is not
frame 0's value `3`: the degenerate frame 1 triggers the early
`(0.0, 1.0, 0)` return. -/
theorem valid_codons_frame0_cex :
    frameScore [1, 0, 0] 0 ≤ 0 ∧ frameScore [1, 0, 0] 1 ≤ 0 ∧
      frameScore [1, 0, 0] 2 ≤ 0 ∧ (coherence [1, 0, 0]).2.2 = 0 ∧
      3 * ((frameData [1, 0, 0] 0).length : ℤ) ≠ (coherence [1, 0, 0]).2.2 := by
  have h0 : frameScore [1, 0, 0] 0 ≤ 0 := by
    show (frameScorePval (List.drop 0 [1, 0, 0])).1 ≤ 0
    rw [frameScorePval_single _ (by decide)]
  have h1 : frameScore [1, 0, 0] 1 ≤ 0 := by
    show (frameScorePval (List.drop 1 [1, 0, 0])).1 ≤ 0
    rw [frameScorePval_fst_empty _ (by decide)]
  have h2 : frameScore [1, 0, 0] 2 ≤ 0 := by
    show (frameScorePval (List.drop 2 [1, 0, 0])).1 ≤ 0
    rw [frameScorePval_fst_empty _ (by decide)]
  refine ⟨h0, h1, h2, ?_, ?_⟩
  · rw [coherence_eval_100]
  · rw [coherence_eval_100]
    decide

/-- Claim C6, amended.  Provided every frame is non-degenerate (each
truncated normalized signal is nonempty) and no frame attains a strictly
positive effective score, the valid-codons value `coherence` returns is that
of the first frame evaluated (frame 0): its truncated length
`3 * number of retained codons`, not necessarily the maximal one. -/
theorem valid_codons_frame0_amended (v : List ℤ)
    (hne : ∀ f, f < 3 → frameData v f ≠ [])
    (hsc : ∀ f, f < 3 → frameScore v f ≤ 0) :
    (coherence v).2.2 = 3 * ((frameData v 0).length : ℤ) :=
  coherence_valid_frame0_of_nonpos v hne hsc

/-- Witness for the amended claim C6 at `[1,1,1,1,1]`: every frame retains
exactly one codon (so every effective score is zero via the `N = 1`
fallback) and the reported valid value is frame 0's length `3`. -/
theorem valid_codons_frame0_amended_witness :
    frameData [1, 1, 1, 1, 1] 0 ≠ [] ∧ frameData [1, 1, 1, 1, 1] 1 ≠ [] ∧
      frameData [1, 1, 1, 1, 1] 2 ≠ [] ∧
      frameScore [1, 1, 1, 1, 1] 0 ≤ 0 ∧ frameScore [1, 1, 1, 1, 1] 1 ≤ 0 ∧
      frameScore [1, 1, 1, 1, 1] 2 ≤ 0 ∧
      (coherence [1, 1, 1, 1, 1]).2.2 = 3 * ((frameData [1, 1, 1, 1, 1] 0).length : ℤ) := by
  have hs0 : frameScore [1, 1, 1, 1, 1] 0 ≤ 0 := by
    show (frameScorePval (List.drop 0 [1, 1, 1, 1, 1])).1 ≤ 0
    rw [frameScorePval_single _ (by decide)]
  have hs1 : frameScore [1, 1, 1, 1, 1] 1 ≤ 0 := by
    show (frameScorePval (List.drop 1 [1, 1, 1, 1, 1])).1 ≤ 0
    rw [frameScorePval_single _ (by decide)]
  have hs2 : frameScore [1, 1, 1, 1, 1] 2 ≤ 0 := by
    show (frameScorePval (List.drop 2 [1, 1, 1, 1, 1])).1 ≤ 0
    rw [frameScorePval_single _ (by decide)]
  refine ⟨by decide, by decide, by decide, hs0, hs1, hs2, ?_⟩
  exact valid_codons_frame0_amended [1, 1, 1, 1, 1]
    (by intro f hf; interval_cases f <;> decide)
    (by intro f hf; interval_cases f
        exacts [hs0, hs1, hs2])

/-- Claim C10.  For every coverage array the valid-codons value returned by
`coherence` is a non-negative multiple of 3; whenever it is nonzero it is
`3 *` the number of retained codons of one of the three frames, i.e. the
truncated normalized-signal length in nucleotide positions, not the number
of retained codons. -/
theorem coherence_valid_nonneg_multiple_of_three (v : List ℤ) :
    0 ≤ (coherence v).2.2 ∧ 3 ∣ (coherence v).2.2 ∧
      ((coherence v).2.2 = 0 ∨
        ∃ f, f < 3 ∧ (coherence v).2.2 = 3 * ((frameData v f).length : ℤ)) :=
  coherence_valid_structure v

/-- Claim C9, counterexample.  The coherence caller does reach the `N = 1`
significance-model state: on `[1,0,0]` frame 0 retains exactly one codon,
the `pvalue` call at `N = 1` signals the division error, and the blanket
`except` silently converts the whole frame result to score `0.0`, p-value
`1.0` — culminating in the `(0.0, 1.0, 0)` return. -/
theorem pvalue_n1_reached_cex :
    (frameData [1, 0, 0] 0).length = 1 ∧
      pvalueE (welchCoherenceAtOneThird ((frameData [1, 0, 0] 0).map normalizeTriplet)) 1 =
        none ∧
      coherence [1, 0, 0] = (0, 1, 0) := by
  refine ⟨by decide, ?_, coherence_eval_100⟩
  simp [pvalueE]

/-- Claim C9, amended.  `pvalue` does signal an error at `N = 1` (the
non-centrality `2/(N-1)` division raises; no value is silently returned),
but the caller is not protected from this state: `coherence` reaches
`N = 1` whenever a frame retains exactly one codon, as on `[1,0,0]`, where
it suppresses the error into the per-frame fallback score `0.0`, p-value
`1.0` (with `valid = 3`). -/
theorem pvalue_n1_amended :
    (∀ x : ℝ, pvalueE x 1 = none) ∧
      frameStep (0, 1, -1) (List.drop 0 [1, 0, 0]) = some (0, 1, 3) := by
  constructor
  · intro x
    simp [pvalueE]
  · have hr : retainedTriplets (List.drop 0 [1, 0, 0]) = [(1, 0, 0)] := by decide
    rw [frameStep_eq_some _ _ (by decide)]
    rw [frameScorePval_single _ (by decide), hr]
    unfold frameUpdate
    norm_num

/-- Claim C3.  The classification of `export_orf_coverages` is
`"translating"` if and only if all five gates hold simultaneously — phase
score, valid codons, every codon-collapsed coverage value, valid-codon
ratio, and mean per-codon density each at least their threshold — with
every comparison inclusive; and the only other possible status is
`"nontranslating"`, so failing any single gate yields it. -/
theorem translating_iff_five_gates (coh valid_codons : ℝ) (codon_coverage : List ℝ)
    (vcFrac orfDens cutoff minValid minReads minFrac minDens : ℝ) :
    (orf_status_of coh valid_codons codon_coverage vcFrac orfDens cutoff minValid minReads
        minFrac minDens = "translating" ↔
      cutoff ≤ coh ∧ minValid ≤ valid_codons ∧ (∀ c ∈ codon_coverage, minReads ≤ c) ∧
        minFrac ≤ vcFrac ∧ minDens ≤ orfDens) ∧
    (orf_status_of coh valid_codons codon_coverage vcFrac orfDens cutoff minValid minReads
        minFrac minDens = "translating" ∨
      orf_status_of coh valid_codons codon_coverage vcFrac orfDens cutoff minValid minReads
        minFrac minDens = "nontranslating") := by
  simp only [orf_status_of]
  have hall : (((codon_coverage.map fun c => decide (minReads ≤ c)).all fun b => b) = true) ↔
      ∀ c ∈ codon_coverage, minReads ≤ c := by
    simp [List.all_eq_true]
  split_ifs with h
  · refine ⟨⟨fun _ => ?_, fun _ => rfl⟩, Or.inl rfl⟩
    exact ⟨h.1, h.2.1, hall.mp h.2.2.1, h.2.2.2.1, h.2.2.2.2⟩
  · refine ⟨⟨fun hfalse => absurd hfalse (by decide), fun hg => ?_⟩, Or.inr rfl⟩
    exact absurd ⟨hg.1, hg.2.1, hall.mpr hg.2.2.1, hg.2.2.2.1, hg.2.2.2.2⟩ h

/-- Claim C4, counterexample.  For the coverage `[3,0,0,2,0,0,1,0,0]` the
ribotricer coherence reports `valid_codons = 3` retained codons, not `9`. -/
theorem orf_scenario_valid_codons_cex :
    (statistics_coherence [3, 0, 0, 2, 0, 0, 1, 0, 0]).2 = 3 ∧
      (statistics_coherence [3, 0, 0, 2, 0, 0, 1, 0, 0]).2 ≠ 9 := by
  rw [statistics_coherence_c4]
  exact ⟨rfl, by decide⟩

/-- Claim C4, amended.  For the coverage `[3,0,0,2,0,0,1,0,0]` under the
default thresholds `cutoff = 0.4275`, `min_valid_codons = 5` (and any
remaining thresholds at most the achieved values `1`, `1`, `2`), the scorer
reports `valid_codons = 3` and score `1.0`, and the status is
`"nontranslating"` solely because the minimum-valid-codons gate fails
(`3 < 5`): lowering that single threshold to `3` makes the status
`"translating"`, so every other gate passes. -/
theorem orf_scenario_amended (mr mf md : ℝ) (h1 : mr ≤ 1) (h2 : mf ≤ 1) (h3 : md ≤ 2) :
    (statistics_coherence [3, 0, 0, 2, 0, 0, 1, 0, 0]).1 = 1 ∧
      (statistics_coherence [3, 0, 0, 2, 0, 0, 1, 0, 0]).2 = 3 ∧
      orf_status [3, 0, 0, 2, 0, 0, 1, 0, 0] (0.4275) 5 mr mf md = "nontranslating" ∧
      orf_status [3, 0, 0, 2, 0, 0, 1, 0, 0] (0.4275) 3 mr mf md = "translating" := by
  refine ⟨by rw [statistics_coherence_c4], by rw [statistics_coherence_c4], ?_, ?_⟩
  · rw [orf_status_c4_reduce]
    exact orf_status_of_c4_nontranslating mr mf md
  · rw [orf_status_c4_reduce]
    exact orf_status_of_c4_translating mr mf md h1 h2 h3

/-- Witness for the amended claim C4 with the remaining thresholds at 0. -/
theorem orf_scenario_amended_witness :
    (0 : ℝ) ≤ 1 ∧ (0 : ℝ) ≤ 2 ∧
      orf_status [3, 0, 0, 2, 0, 0, 1, 0, 0] (0.4275) 5 0 0 0 = "nontranslating" ∧
      orf_status [3, 0, 0, 2, 0, 0, 1, 0, 0] (0.4275) 3 0 0 0 = "translating" :=
  ⟨by norm_num, by norm_num,
    (orf_scenario_amended 0 0 0 (by norm_num) (by norm_num) (by norm_num)).2.2.1,
    (orf_scenario_amended 0 0 0 (by norm_num) (by norm_num) (by norm_num)).2.2.2⟩

/-- Claim C5.  For every fixed `N ≥ 2`, `pvalue(score, N)` is monotonically
non-increasing as the score increases, and `pvalue(0, N) = 1`. -/
theorem pvalue_antitone_and_one_at_zero (N : ℤ) (hN : 2 ≤ N) :
    (∀ s t : ℝ, s ≤ t → pvalue t N ≤ pvalue s N) ∧ pvalue 0 N = 1 := by
  have hNR : (2 : ℝ) ≤ (N : ℝ) := by exact_mod_cast hN
  constructor
  · intro s t hst
    unfold pvalue
    apply ncx2_sf_anti
    have hnum : 2 * (N : ℝ) ^ 2 * s ≤ 2 * (N : ℝ) ^ 2 * t :=
      mul_le_mul_of_nonneg_left hst (by positivity)
    have hden : (0 : ℝ) < (N : ℝ) - 1 := by linarith
    exact (div_le_div_iff_of_pos_right hden).mpr hnum
  · unfold pvalue
    rw [show 2 * (N : ℝ) ^ 2 * 0 / ((N : ℝ) - 1) = 0 from by ring]
    exact ncx2_sf_zero _

/-- Witness for claim C5 at `N = 2`, scores `0 ≤ 1`. -/
theorem pvalue_antitone_witness :
    2 ≤ (2 : ℤ) ∧ ((0 : ℝ) ≤ 1 ∧ pvalue 1 2 ≤ pvalue 0 2) ∧ pvalue 0 2 = 1 :=
  ⟨le_refl 2,
    ⟨by norm_num, (pvalue_antitone_and_one_at_zero 2 (le_refl 2)).1 0 1 (by norm_num)⟩,
    (pvalue_antitone_and_one_at_zero 2 (le_refl 2)).2⟩

/-- Claim C7, counterexample.  At `v3 = 0`, which lies inside `[0, 9]`, the
integration bounds coincide (`delta2 = epsilon2 = 1`) and `integral_p3`
returns `0`, not a positive value. -/
theorem integral_p3_zero_not_positive_cex :
    integral_p3 0 = 0 ∧ ¬ 0 < integral_p3 0 := by
  refine ⟨integral_p3_at_zero, ?_⟩
  rw [integral_p3_at_zero]
  norm_num

/-- Claim C7, amended.  `integral_p3` returns `0` for `v3 < 0` or `v3 > 9`,
and also at the endpoints `v3 = 0` and `v3 = 9`, where the integration
bounds coincide; for `v3` strictly inside `(0, 9)` the lower bound is
strictly below the upper bound, the integrand is strictly positive
throughout the open integration interval, and the returned value is
nonnegative. -/
theorem integral_p3_amended :
    (∀ v3 : ℝ, (v3 < 0 ∨ v3 > 9) → integral_p3 v3 = 0) ∧
      integral_p3 0 = 0 ∧ integral_p3 9 = 0 ∧
      (∀ v3 : ℝ, 0 < v3 → v3 < 9 →
        ((1 - Real.sqrt v3) ^ 2 < min 4 ((1 + Real.sqrt v3) ^ 2) ∧
          (∀ u : ℝ, (1 - Real.sqrt v3) ^ 2 < u → u < min 4 ((1 + Real.sqrt v3) ^ 2) →
            0 < integrate_v2_v3 u v3) ∧
          0 ≤ integral_p3 v3)) := by
  refine ⟨?_, integral_p3_at_zero, integral_p3_at_nine, ?_⟩
  · intro v3 h
    unfold integral_p3
    rw [if_pos h]
  · intro v3 h0 h9
    exact ⟨integral_p3_bounds_lt h0 h9,
      fun u hl hr => integrate_v2_v3_pos h0 hl hr,
      integral_p3_nonneg_inside h0 h9⟩

/-- Witness for the amended claim C7 at `v3 = 4` (inside the support) and
`v3 = -1` (outside). -/
theorem integral_p3_amended_witness :
    ((0 : ℝ) < 4 ∧ (4 : ℝ) < 9 ∧ 0 ≤ integral_p3 4) ∧
      (((-1 : ℝ) < 0 ∨ (-1 : ℝ) > 9) ∧ integral_p3 (-1) = 0) :=
  ⟨⟨by norm_num, by norm_num,
      (integral_p3_amended.2.2.2 4 (by norm_num) (by norm_num)).2.2⟩,
    ⟨Or.inl (by norm_num), integral_p3_amended.1 (-1) (Or.inl (by norm_num))⟩⟩

/-- Claim C8.  For `k = 2`, the phase-vector density equals the closed form
`(1/pi) * 1/sqrt(x*(4-x))` at every point of `[0, 4]` and `0` at every
point outside `[0, 4]`. -/
theorem phase_vector_pdf_k2_closed_form (x : ℝ) :
    (0 ≤ x → x ≤ 4 → phase_vector_pdf_k2 x = 1 / Real.pi * (1 / Real.sqrt (x * (4 - x)))) ∧
      ((x < 0 ∨ 4 < x) → phase_vector_pdf_k2 x = 0) := by
  unfold phase_vector_pdf_k2
  constructor
  · intro h0 h4
    rw [if_pos ⟨h4, h0⟩, one_mul]
  · intro h
    rw [if_neg, zero_mul]
    rcases h with h | h
    · intro hc
      linarith [hc.2]
    · intro hc
      linarith [hc.1]

/-- Witness for claim C8 at `x = 2` (inside the support) and `x = 5`
(outside). -/
theorem phase_vector_pdf_k2_witness :
    ((0 : ℝ) ≤ 2 ∧ (2 : ℝ) ≤ 4 ∧
        phase_vector_pdf_k2 2 = 1 / Real.pi * (1 / Real.sqrt (2 * (4 - 2)))) ∧
      (((5 : ℝ) < 0 ∨ (4 : ℝ) < 5) ∧ phase_vector_pdf_k2 5 = 0) :=
  ⟨⟨by norm_num, by norm_num,
      (phase_vector_pdf_k2_closed_form 2).1 (by norm_num) (by norm_num)⟩,
    ⟨Or.inr (by norm_num), (phase_vector_pdf_k2_closed_form 5).2 (Or.inr (by norm_num))⟩⟩
